import Mathlib

set_option maxRecDepth 4000

/-!
Verification of the token-stats repository (src/hooks/log-token-stats.py and
src/lib/pricing.py) against its natural-language specification.

The Python code is shallowly embedded: dictionaries become association lists
that preserve insertion order (Python 3.7+ dict semantics), datetimes become
rationals (seconds), JSON-nullable integer fields become `Option ℕ`, and
floats become rationals.  Every definition follows the corresponding source
function; claim theorems are stated afterwards.
-/

namespace TokenStats

/-! ## Association-list primitives

Python dictionaries keep insertion order; `d[k] = v` replaces the value in
place when `k` is present and appends `(k, v)` at the end otherwise.
`alistLookup` is `d.get(k)`. -/

def alistLookup [DecidableEq κ] (k : κ) : List (κ × α) → Option α
  | [] => none
  | (k', v) :: rest => if k' = k then some v else alistLookup k rest

/-- Update-or-insert mirroring a Python dict write: if key `k` is present,
apply `fOld` to its value in place; otherwise append `(k, fNew)` at the end. -/
def dictUpd [DecidableEq κ] (k : κ) (fNew : α) (fOld : α → α) : List (κ × α) → List (κ × α)
  | [] => [(k, fNew)]
  | (k', v) :: rest =>
    if k' = k then (k', fOld v) :: rest else (k', v) :: dictUpd k fNew fOld rest

/-! ## Substring containment

Python's `a in b` on strings is substring containment; embedded on the
underlying character lists. -/

def startsWithChars : List Char → List Char → Bool
  | [], _ => true
  | _ :: _, [] => false
  | a :: as, b :: bs => a == b && startsWithChars as bs

def containsChars (needle : List Char) : List Char → Bool
  | [] => startsWithChars needle []
  | c :: rest => startsWithChars needle (c :: rest) || containsChars needle rest

/-- `strIn a b` embeds Python `a in b` (substring test) on strings. -/
def strIn (needle hay : String) : Bool :=
  containsChars needle.data hay.data

/-! ## Pricing (src/lib/pricing.py)

A price vector holds price per million tokens for the four token types.
Components are optional because a user-supplied override entry may omit some
of them; `mp.get("input", 0)` in the source treats a missing component as 0. -/

structure PriceEntry where
  input : Option ℚ
  output : Option ℚ
  cache_read : Option ℚ
  cache_write : Option ℚ
deriving DecidableEq

/-- Build a price entry with all four components present, as every entry of
the built-in tables is. -/
def mkPE (i o r w : ℚ) : PriceEntry := ⟨some i, some o, some r, some w⟩

/-- DEFAULT_PRICING table of src/lib/pricing.py (values per million tokens;
decimal literals written as rationals). -/
def DEFAULT_PRICING : List (String × PriceEntry) :=
  [("claude-opus-4-5-20251101", mkPE 5 25 (1/2) (25/4)),
   ("claude-sonnet-4-20250514", mkPE 3 15 (3/10) (15/4)),
   ("claude-3-5-sonnet-20241022", mkPE 3 15 (3/10) (15/4)),
   ("claude-3-5-haiku-20241022", mkPE (4/5) 4 (2/25) 1)]

/-- FAMILY_PRICING table of src/lib/pricing.py. -/
def FAMILY_PRICING : List (String × PriceEntry) :=
  [("opus", mkPE 15 75 (3/2) (75/4)),
   ("sonnet", mkPE 3 15 (3/10) (15/4)),
   ("haiku", mkPE 1 5 (1/10) (5/4))]

/-- get_family_pricing: family fallback by case-insensitive substring of the
model id; anything that is neither opus nor haiku gets sonnet pricing. -/
def get_family_pricing (model : String) : PriceEntry :=
  let model_lower := model.toLower
  if strIn "opus" model_lower then mkPE 15 75 (3/2) (75/4)
  else if strIn "haiku" model_lower then mkPE 1 5 (1/10) (5/4)
  else mkPE 3 15 (3/10) (15/4)

/-- load_pricing: start from the default table and fold in a user override
object with dict-update semantics (`pricing.update(custom)`).  `none` models
the cases where the override file is absent, unreadable, or not valid JSON,
all of which leave the defaults standing. -/
def load_pricing (override : Option (List (String × PriceEntry))) :
    List (String × PriceEntry) :=
  match override with
  | none => DEFAULT_PRICING
  | some custom => custom.foldl (fun acc kv => dictUpd kv.1 kv.2 (fun _ => kv.2) acc)
      DEFAULT_PRICING

/-- get_model_pricing: exact key match, else the first key (in table order)
that is a substring of the model id or vice versa, else family fallback. -/
def get_model_pricing (model : String) (pricing : List (String × PriceEntry)) :
    PriceEntry :=
  match alistLookup model pricing with
  | some pe => pe
  | none =>
    match pricing.find? (fun kv => strIn kv.1 model || strIn model kv.1) with
    | some kv => kv.2
    | none => get_family_pricing model

/-- A token-count mapping as passed to calculate_cost; every field may be
absent (`tokens.get(field, 0)` defaults it to 0). -/
structure TokensDict where
  input_tokens : Option ℕ
  output_tokens : Option ℕ
  cache_read_tokens : Option ℕ
  cache_creation_tokens : Option ℕ
deriving DecidableEq

/-- calculate_cost of src/lib/pricing.py: resolve the model's price entry and
accumulate the four (count / 1,000,000) · price terms, with absent token
fields and absent price components both contributing 0. -/
def calculate_cost (tokens : TokensDict) (model : String)
    (pricing : List (String × PriceEntry)) : ℚ :=
  let mp := get_model_pricing model pricing
  let cost : ℚ := 0
  let cost := cost + ((tokens.input_tokens.getD 0 : ℚ) / 1000000) * mp.input.getD 0
  let cost := cost + ((tokens.output_tokens.getD 0 : ℚ) / 1000000) * mp.output.getD 0
  let cost := cost + ((tokens.cache_read_tokens.getD 0 : ℚ) / 1000000) * mp.cache_read.getD 0
  let cost := cost + ((tokens.cache_creation_tokens.getD 0 : ℚ) / 1000000) * mp.cache_write.getD 0
  cost

/-- The cost formula as the spec words it: the sum over the four token types
of (count / 1,000,000) times the resolved price component, a missing price
component contributing zero. -/
def specCostSum (tokens : TokensDict) (mp : PriceEntry) : ℚ :=
  (([(tokens.input_tokens, mp.input), (tokens.output_tokens, mp.output),
     (tokens.cache_read_tokens, mp.cache_read),
     (tokens.cache_creation_tokens, mp.cache_write)]).map
    (fun p => ((p.1.getD 0 : ℚ) / 1000000) * p.2.getD 0)).sum

/-! ## Transcript aggregator (parse_transcript, src/hooks/log-token-stats.py)

A raw transcript line either is blank (whitespace only), fails json.loads, or
parses to a JSON object (`Entry`).  Timestamps are modelled as rationals
(seconds); an entry's `timestamp` field is `none` when absent or empty
(falsy), `some none` when present but unparseable by parse_iso_timestamp, and
`some (some t)` when it parses to instant `t`. -/

structure Usage where
  input_tokens : Option ℕ
  output_tokens : Option ℕ
  cache_read_input_tokens : Option ℕ
  cache_creation_input_tokens : Option ℕ
deriving DecidableEq

structure Message where
  model : Option String
  usage : Option Usage
deriving DecidableEq

/-- One parsed transcript line.  `requestId = ""` models an absent or empty
(falsy) requestId; `usage = none` models an absent or empty (falsy) usage
block. -/
structure Entry where
  type : String
  requestId : String
  timestamp : Option (Option ℚ)
  message : Message
deriving DecidableEq

inductive RawLine
  | blank
  | malformed
  | entry (e : Entry)
deriving DecidableEq

/-- The token data extracted from one qualifying record (model defaulted to
"unknown", token counts defaulted to 0). -/
structure UsageRec where
  model : String
  input_tokens : ℕ
  output_tokens : ℕ
  cache_read_tokens : ℕ
  cache_creation_tokens : ℕ
deriving DecidableEq

/-- One request_usage value: the per-request aggregate being folded. -/
structure ReqUsage where
  model : String
  input_tokens : ℕ
  output_tokens : ℕ
  cache_read_tokens : ℕ
  cache_creation_tokens : ℕ
deriving DecidableEq

/-- One request_timing value.  The source stores the raw first/last timestamp
strings; here each is represented by its parse result (`none` = the stored
string does not parse). -/
structure ReqTiming where
  first_ts : Option ℚ
  last_ts : Option ℚ
deriving DecidableEq

structure ParseState where
  request_usage : List (String × ReqUsage)
  request_timing : List (String × ReqTiming)
deriving DecidableEq

/-- First record for a request id initialises the aggregate with its values
(lines 151-159 of the source). -/
def initRec (r : UsageRec) : ReqUsage :=
  ⟨r.model, r.input_tokens, r.output_tokens, r.cache_read_tokens, r.cache_creation_tokens⟩

/-- A later record folds in by taking the max of each token field
independently, and overwrites the model whenever the incoming model is not
"unknown" (lines 160-169 of the source). -/
def mergeRec (existing : ReqUsage) (r : UsageRec) : ReqUsage :=
  { model := if r.model ≠ "unknown" then r.model else existing.model
    input_tokens := max existing.input_tokens r.input_tokens
    output_tokens := max existing.output_tokens r.output_tokens
    cache_read_tokens := max existing.cache_read_tokens r.cache_read_tokens
    cache_creation_tokens := max existing.cache_creation_tokens r.cache_creation_tokens }

/-- Process one transcript line into the scan state (the body of the line
loop of parse_transcript, lines 128-182).  Blank and malformed lines are
skipped; only "assistant" entries with a truthy usage block and a truthy
requestId contribute; timestamps are tracked when present. -/
def foldEntry (st : ParseState) (l : RawLine) : ParseState :=
  match l with
  | .blank => st
  | .malformed => st
  | .entry e =>
    if e.type = "assistant" then
      match e.message.usage with
      | none => st
      | some u =>
        if e.requestId = "" then st
        else
          let r : UsageRec :=
            ⟨e.message.model.getD "unknown", u.input_tokens.getD 0, u.output_tokens.getD 0,
             u.cache_read_input_tokens.getD 0, u.cache_creation_input_tokens.getD 0⟩
          let st1 : ParseState :=
            { st with request_usage :=
                dictUpd e.requestId (initRec r) (fun ex => mergeRec ex r) st.request_usage }
          match e.timestamp with
          | none => st1
          | some p =>
            { st1 with request_timing :=
                (dictUpd e.requestId ⟨p, p⟩ (fun tm => { tm with last_ts := p })
                  st1.request_timing) }
    else st

/-- The full line scan of parse_transcript. -/
def parseScan (lines : List RawLine) : ParseState :=
  lines.foldl foldEntry ⟨[], []⟩

/-- Per-model summary (by_model values). -/
structure ModelStats where
  input_tokens : ℕ
  output_tokens : ℕ
  cache_read_tokens : ℕ
  cache_creation_tokens : ℕ
  request_count : ℕ
  cost : ℚ
deriving DecidableEq

def tokensOfModelStats (ms : ModelStats) : TokensDict :=
  ⟨some ms.input_tokens, some ms.output_tokens, some ms.cache_read_tokens,
   some ms.cache_creation_tokens⟩

/-- Add one request aggregate into by_model (lines 188-203). -/
def addToModel (bm : List (String × ModelStats)) (u : ReqUsage) :
    List (String × ModelStats) :=
  dictUpd u.model
    ⟨u.input_tokens, u.output_tokens, u.cache_read_tokens, u.cache_creation_tokens, 1, 0⟩
    (fun ms =>
      ⟨ms.input_tokens + u.input_tokens, ms.output_tokens + u.output_tokens,
       ms.cache_read_tokens + u.cache_read_tokens,
       ms.cache_creation_tokens + u.cache_creation_tokens, ms.request_count + 1, ms.cost⟩)
    bm

/-- by_model with per-model cost attached (lines 188-207). -/
def byModelWithCost (pricing : List (String × PriceEntry)) (st : ParseState) :
    List (String × ModelStats) :=
  let bm := st.request_usage.foldl (fun acc p => addToModel acc p.2) []
  bm.map (fun kv =>
    (kv.1, { kv.2 with cost := calculate_cost (tokensOfModelStats kv.2) kv.1 pricing }))

/-- Global totals (lines 209-220). -/
structure Totals where
  input_tokens : ℕ
  output_tokens : ℕ
  cache_read_tokens : ℕ
  cache_creation_tokens : ℕ
  request_count : ℕ
  cost : ℚ
  total_tokens : ℕ
deriving DecidableEq

def mkTotals (bm : List (String × ModelStats)) (requestCount : ℕ) : Totals :=
  let it := (bm.map (fun kv => kv.2.input_tokens)).sum
  let ot := (bm.map (fun kv => kv.2.output_tokens)).sum
  let crt := (bm.map (fun kv => kv.2.cache_read_tokens)).sum
  let cct := (bm.map (fun kv => kv.2.cache_creation_tokens)).sum
  { input_tokens := it, output_tokens := ot, cache_read_tokens := crt,
    cache_creation_tokens := cct, request_count := requestCount,
    cost := (bm.map (fun kv => kv.2.cost)).sum, total_tokens := it + ot + crt + cct }

/-- A completed request (lines 245-254).  `timestamp` is the parse result of
the stored last-timestamp string (`none` = absent/empty or unparseable),
matching how update_timeseries later re-parses it. -/
structure CompletedRequest where
  request_id : String
  timestamp : Option ℚ
  duration_seconds : ℚ
  output_tokens : ℕ
  total_tokens : ℕ
  output_tps : ℚ
  total_tps : ℚ
  cost : ℚ
deriving DecidableEq

def tokensOfReqUsage (u : ReqUsage) : TokensDict :=
  ⟨some u.input_tokens, some u.output_tokens, some u.cache_read_tokens,
   some u.cache_creation_tokens⟩

/-- The per-request completion check (lines 229-254): both timestamps must
parse, and the duration must lie strictly between 0.1 and 3600 seconds. -/
def mkCompleted (pricing : List (String × PriceEntry)) (rid : String) (u : ReqUsage)
    (tm : ReqTiming) : Option CompletedRequest :=
  match tm.first_ts, tm.last_ts with
  | some f, some l =>
    let duration := l - f
    if 1/10 < duration ∧ duration < 3600 then
      let output_tokens := u.output_tokens
      let total_tokens := u.input_tokens + u.output_tokens +
        u.cache_read_tokens + u.cache_creation_tokens
      some { request_id := rid, timestamp := some l, duration_seconds := duration,
             output_tokens := output_tokens, total_tokens := total_tokens,
             output_tps := (output_tokens : ℚ) / duration,
             total_tps := (total_tokens : ℚ) / duration,
             cost := calculate_cost (tokensOfReqUsage u) u.model pricing }
    else none
  | _, _ => none

/-- completed_requests (lines 222-256): iterate request_usage in insertion
order, look up the timing entry, and keep the requests passing the duration
check. -/
def completedRequests (pricing : List (String × PriceEntry)) (st : ParseState) :
    List CompletedRequest :=
  st.request_usage.filterMap (fun p =>
    match alistLookup p.1 st.request_timing with
    | some tm => mkCompleted pricing p.1 p.2 tm
    | none => none)

structure TranscriptResult where
  by_model : List (String × ModelStats)
  totals : Totals
  completed_requests : List CompletedRequest
deriving DecidableEq

/-- parse_transcript on an existing file: scan the lines, then build
by_model, totals and completed_requests.  The pricing table is
load_pricing applied to the (arbitrary) override object. -/
def parse_transcript (override : Option (List (String × PriceEntry)))
    (lines : List RawLine) : TranscriptResult :=
  let pricing := load_pricing override
  let st := parseScan lines
  let bm := byModelWithCost pricing st
  { by_model := bm, totals := mkTotals bm st.request_usage.length,
    completed_requests := completedRequests pricing st }

/-! Qualifying-record extraction, for stating C1/C4/C5: the records of a
given request id that parse_transcript actually folds. -/

/-- The usage record a line contributes to request id `rid`, if any:
the line must parse, have type "assistant", a truthy usage block, and carry
requestId `rid` (nonempty). -/
def lineRec (rid : String) (l : RawLine) : Option UsageRec :=
  match l with
  | .entry e =>
    if e.type = "assistant" then
      match e.message.usage with
      | some u =>
        if e.requestId = "" then none
        else if e.requestId = rid then
          some ⟨e.message.model.getD "unknown", u.input_tokens.getD 0,
                u.output_tokens.getD 0, u.cache_read_input_tokens.getD 0,
                u.cache_creation_input_tokens.getD 0⟩
        else none
      | none => none
    else none
  | _ => none

def qualRecs (lines : List RawLine) (rid : String) : List UsageRec :=
  lines.filterMap (lineRec rid)

/-- Fold a list of usage records for one request id into an optional
aggregate, exactly as parse_transcript does (first record initialises, later
ones merge). -/
def foldRequestRecords (o : Option ReqUsage) (recs : List UsageRec) : Option ReqUsage :=
  recs.foldl (fun acc r =>
    match acc with
    | none => some (initRec r)
    | some u => some (mergeRec u r)) o

/-- The aggregate parse_transcript builds from the records of one request id. -/
def aggRecords (recs : List UsageRec) : Option ReqUsage :=
  foldRequestRecords none recs

/-- Maximum of one token field over a list of records. -/
def maxTok (f : UsageRec → ℕ) (recs : List UsageRec) : ℕ :=
  (recs.map f).foldl max 0

/-! ## Helper lemmas about association lists and the scan fold -/

theorem alistLookup_dictUpd_self [DecidableEq κ] (k : κ) (n : α) (f : α → α)
    (l : List (κ × α)) :
    alistLookup k (dictUpd k n f l) =
      some (match alistLookup k l with | none => n | some v => f v) := by
  induction l with
  | nil => simp [dictUpd, alistLookup]
  | cons kv rest ih =>
    obtain ⟨k', v⟩ := kv
    by_cases h : k' = k
    · subst h; simp [dictUpd, alistLookup]
    · simp [dictUpd, alistLookup, h, ih]

theorem alistLookup_dictUpd_ne [DecidableEq κ] {k' k : κ} (h : k' ≠ k) (n : α)
    (f : α → α) (l : List (κ × α)) :
    alistLookup k (dictUpd k' n f l) = alistLookup k l := by
  induction l with
  | nil => simp [dictUpd, alistLookup, h]
  | cons kv rest ih =>
    obtain ⟨k₀, v⟩ := kv
    by_cases h0 : k₀ = k'
    · subst h0; simp [dictUpd, alistLookup, h]
    · by_cases h1 : k₀ = k <;> simp [dictUpd, alistLookup, h0, h1, ih, Ne.symm h]

theorem mem_of_alistLookup_eq_some [DecidableEq κ] {k : κ} {v : α} {l : List (κ × α)}
    (h : alistLookup k l = some v) : (k, v) ∈ l := by
  induction l with
  | nil => simp [alistLookup] at h
  | cons kv rest ih =>
    obtain ⟨k₀, v₀⟩ := kv
    by_cases h0 : k₀ = k
    · subst h0
      simp [alistLookup] at h
      simp [h]
    · simp [alistLookup, h0] at h
      exact List.mem_cons_of_mem _ (ih h)

theorem alistLookup_eq_some_of_mem_nodup [DecidableEq κ] {k : κ} {v : α}
    {l : List (κ × α)} (hnd : (l.map Prod.fst).Nodup) (hm : (k, v) ∈ l) :
    alistLookup k l = some v := by
  induction l with
  | nil => simp at hm
  | cons kv rest ih =>
    obtain ⟨k₀, v₀⟩ := kv
    simp only [List.map_cons, List.nodup_cons] at hnd
    rcases List.mem_cons.mp hm with h | h
    · cases h
      simp [alistLookup]
    · have hk : k₀ ≠ k := by
        intro hcontra
        apply hnd.1
        rw [hcontra]
        exact List.mem_map.mpr ⟨(k, v), h, rfl⟩
      simp [alistLookup, hk, ih hnd.2 h]

theorem keys_dictUpd [DecidableEq κ] (k : κ) (n : α) (f : α → α) (l : List (κ × α)) :
    (dictUpd k n f l).map Prod.fst =
      if k ∈ l.map Prod.fst then l.map Prod.fst else l.map Prod.fst ++ [k] := by
  induction l with
  | nil => simp [dictUpd]
  | cons kv rest ih =>
    obtain ⟨k₀, v₀⟩ := kv
    by_cases h0 : k₀ = k
    · subst h0; simp [dictUpd]
    · have : ¬ (k = k₀) := fun h => h0 h.symm
      simp only [dictUpd, if_neg h0, List.map_cons, List.mem_cons, this, false_or, ih]
      by_cases hmem : k ∈ rest.map Prod.fst <;> simp [hmem]

theorem nodup_keys_dictUpd [DecidableEq κ] (k : κ) (n : α) (f : α → α)
    {l : List (κ × α)} (h : (l.map Prod.fst).Nodup) :
    ((dictUpd k n f l).map Prod.fst).Nodup := by
  rw [keys_dictUpd]
  by_cases hmem : k ∈ l.map Prod.fst
  · simpa [hmem] using h
  · simp only [hmem, if_false]
    simp [List.nodup_append, h, hmem]

theorem nodup_keys_foldEntry {st : ParseState} (l : RawLine)
    (h : (st.request_usage.map Prod.fst).Nodup) :
    (((foldEntry st l).request_usage).map Prod.fst).Nodup := by
  cases l with
  | blank => exact h
  | malformed => exact h
  | entry e =>
    simp only [foldEntry]
    by_cases ht : e.type = "assistant"
    · simp only [ht, if_true]
      cases hu : e.message.usage with
      | none => exact h
      | some u =>
        by_cases hr : e.requestId = ""
        · simp [hr]; exact h
        · simp only [hr, if_false]
          cases e.timestamp <;> exact nodup_keys_dictUpd _ _ _ h
    · simp only [ht, if_false]; exact h

theorem nodup_keys_parseScan (lines : List RawLine) :
    (((parseScan lines).request_usage).map Prod.fst).Nodup := by
  have : ∀ (st : ParseState), (st.request_usage.map Prod.fst).Nodup →
      (((lines.foldl foldEntry st).request_usage).map Prod.fst).Nodup := by
    induction lines with
    | nil => intro st h; exact h
    | cons l ls ih =>
      intro st h
      exact ih _ (nodup_keys_foldEntry l h)
  exact this ⟨[], []⟩ (by simp)

/-- One scan step, seen through the lookup of a fixed request id: it folds in
exactly the record (if any) that the line contributes to that id. -/
theorem foldEntry_usage_lookup (st : ParseState) (l : RawLine) (rid : String) :
    alistLookup rid (foldEntry st l).request_usage =
      foldRequestRecords (alistLookup rid st.request_usage) (lineRec rid l).toList := by
  cases l with
  | blank => rfl
  | malformed => rfl
  | entry e =>
    simp only [foldEntry, lineRec]
    by_cases ht : e.type = "assistant"
    · simp only [ht, if_true]
      cases hu : e.message.usage with
      | none => simp [foldRequestRecords]
      | some u =>
        by_cases hr : e.requestId = ""
        · simp [hr, foldRequestRecords]
        · simp only [hr, if_false]
          by_cases heq : e.requestId = rid
          · subst heq
            cases e.timestamp <;>
              · simp only [Option.toList_some]
                rw [alistLookup_dictUpd_self]
                cases alistLookup e.requestId st.request_usage <;>
                  simp [foldRequestRecords]
          · cases e.timestamp <;>
              · simp only [heq, if_false, Option.toList_none]
                rw [alistLookup_dictUpd_ne heq]
                rfl
    · simp [ht, foldRequestRecords]

theorem qualRecs_cons (l : RawLine) (ls : List RawLine) (rid : String) :
    qualRecs (l :: ls) rid = (lineRec rid l).toList ++ qualRecs ls rid := by
  simp only [qualRecs, List.filterMap_cons]
  cases lineRec rid l <;> simp

theorem foldRequestRecords_append (o : Option ReqUsage) (a b : List UsageRec) :
    foldRequestRecords o (a ++ b) = foldRequestRecords (foldRequestRecords o a) b :=
  List.foldl_append ..

/-- The scan, seen through the lookup of a fixed request id, is the fold of
that id's qualifying records. -/
theorem scan_usage_lookup (lines : List RawLine) (st : ParseState) (rid : String) :
    alistLookup rid (lines.foldl foldEntry st).request_usage =
      foldRequestRecords (alistLookup rid st.request_usage) (qualRecs lines rid) := by
  induction lines generalizing st with
  | nil => rfl
  | cons l ls ih =>
    rw [List.foldl_cons, ih, qualRecs_cons, foldRequestRecords_append,
      foldEntry_usage_lookup]

theorem parseScan_usage_lookup (lines : List RawLine) (rid : String) :
    alistLookup rid (parseScan lines).request_usage = aggRecords (qualRecs lines rid) := by
  unfold parseScan aggRecords
  rw [scan_usage_lookup]
  rfl

theorem foldRequestRecords_some (u0 : ReqUsage) (recs : List UsageRec) :
    foldRequestRecords (some u0) recs = some (recs.foldl mergeRec u0) := by
  induction recs generalizing u0 with
  | nil => rfl
  | cons r rs ih => simp [foldRequestRecords, List.foldl_cons] at ih ⊢; exact ih _

/-- Each token field of the merge fold is the running maximum of that field. -/
theorem foldl_mergeRec_field (g : ReqUsage → ℕ) (f : UsageRec → ℕ)
    (hg : ∀ u r, g (mergeRec u r) = max (g u) (f r)) (recs : List UsageRec)
    (u0 : ReqUsage) :
    g (recs.foldl mergeRec u0) = recs.foldl (fun a r => max a (f r)) (g u0) := by
  induction recs generalizing u0 with
  | nil => rfl
  | cons r rs ih => simp only [List.foldl_cons, ih, hg]

theorem maxTok_cons (f : UsageRec → ℕ) (r : UsageRec) (rs : List UsageRec) :
    maxTok f (r :: rs) = rs.foldl (fun a x => max a (f x)) (f r) := by
  simp [maxTok, List.foldl_map]

/-- C1: for every transcript and request id, each of the four token counts of
the resulting per-request aggregate equals the maximum value of that field
over all qualifying "assistant" records carrying that request id (not their
sum). -/
theorem c1_token_counts_are_max (lines : List RawLine) (rid : String) (u : ReqUsage)
    (h : alistLookup rid (parseScan lines).request_usage = some u) :
    u.input_tokens = maxTok (fun r => r.input_tokens) (qualRecs lines rid) ∧
    u.output_tokens = maxTok (fun r => r.output_tokens) (qualRecs lines rid) ∧
    u.cache_read_tokens = maxTok (fun r => r.cache_read_tokens) (qualRecs lines rid) ∧
    u.cache_creation_tokens =
      maxTok (fun r => r.cache_creation_tokens) (qualRecs lines rid) := by
  rw [parseScan_usage_lookup] at h
  cases hq : qualRecs lines rid with
  | nil => rw [hq] at h; exact absurd h (by simp [aggRecords, foldRequestRecords])
  | cons r rs =>
    rw [hq] at h
    have h2 : foldRequestRecords (some (initRec r)) rs = some u := by
      simpa [aggRecords, foldRequestRecords, List.foldl_cons] using h
    rw [foldRequestRecords_some] at h2
    have hu : u = rs.foldl mergeRec (initRec r) := (Option.some_inj.mp h2).symm
    subst hu
    refine ⟨?_, ?_, ?_, ?_⟩ <;>
      · rw [maxTok_cons]
        first
        | exact foldl_mergeRec_field _ (fun r => r.input_tokens)
            (fun u r => rfl) rs (initRec r)
        | exact foldl_mergeRec_field _ (fun r => r.output_tokens)
            (fun u r => rfl) rs (initRec r)
        | exact foldl_mergeRec_field _ (fun r => r.cache_read_tokens)
            (fun u r => rfl) rs (initRec r)
        | exact foldl_mergeRec_field _ (fun r => r.cache_creation_tokens)
            (fun u r => rfl) rs (initRec r)

/-- The two-line example transcript of the claim: requestId "r1", first
record input 100 / output 5, second record input 100 / output 50. -/
def exLine1 : RawLine :=
  .entry ⟨"assistant", "r1", none, ⟨some "m", some ⟨some 100, some 5, none, none⟩⟩⟩

def exLine2 : RawLine :=
  .entry ⟨"assistant", "r1", none, ⟨some "m", some ⟨some 100, some 50, none, none⟩⟩⟩

/-- C1 witness: on the claim's own example transcript the aggregate holds
input 100 and output 50 (the max, not the sum 55), and the theorem applies. -/
theorem c1_witness :
    (⟨"m", 100, 50, 0, 0⟩ : ReqUsage).input_tokens =
      maxTok (fun r => r.input_tokens) (qualRecs [exLine1, exLine2] "r1") ∧
    (⟨"m", 100, 50, 0, 0⟩ : ReqUsage).output_tokens =
      maxTok (fun r => r.output_tokens) (qualRecs [exLine1, exLine2] "r1") ∧
    (⟨"m", 100, 50, 0, 0⟩ : ReqUsage).cache_read_tokens =
      maxTok (fun r => r.cache_read_tokens) (qualRecs [exLine1, exLine2] "r1") ∧
    (⟨"m", 100, 50, 0, 0⟩ : ReqUsage).cache_creation_tokens =
      maxTok (fun r => r.cache_creation_tokens) (qualRecs [exLine1, exLine2] "r1") :=
  c1_token_counts_are_max [exLine1, exLine2] "r1" ⟨"m", 100, 50, 0, 0⟩ (by rfl)

/-! ## Permutation invariance machinery for C4 -/

theorem foldl_max_perm {l₁ l₂ : List ℕ} (p : l₁.Perm l₂) :
    ∀ v : ℕ, l₁.foldl max v = l₂.foldl max v := by
  induction p with
  | nil => intro v; rfl
  | cons x _ ih => intro v; simp only [List.foldl_cons]; exact ih _
  | swap x y l =>
    intro v
    simp only [List.foldl_cons]
    have h : max (max v y) x = max (max v x) y := by
      rw [Nat.max_assoc, Nat.max_assoc, Nat.max_comm y x]
    rw [h]
  | trans _ _ ih1 ih2 => intro v; rw [ih1, ih2]

theorem maxTok_perm (f : UsageRec → ℕ) {recs recs' : List UsageRec}
    (p : recs.Perm recs') : maxTok f recs = maxTok f recs' :=
  foldl_max_perm (p.map f) 0

theorem aggRecords_cons (r : UsageRec) (rs : List UsageRec) :
    aggRecords (r :: rs) = some (rs.foldl mergeRec (initRec r)) := by
  simp only [aggRecords, foldRequestRecords, List.foldl_cons]
  exact foldRequestRecords_some (initRec r) rs

theorem aggRecords_field_eq_maxTok (f : UsageRec → ℕ) (g : ReqUsage → ℕ)
    (hg : ∀ u r, g (mergeRec u r) = max (g u) (f r)) (hi : ∀ r, g (initRec r) = f r)
    (r : UsageRec) (rs : List UsageRec) :
    g (rs.foldl mergeRec (initRec r)) = maxTok f (r :: rs) := by
  rw [maxTok_cons, foldl_mergeRec_field g f hg, hi]

/-- The four token counts of a request aggregate, as a quadruple. -/
def tokenQuad (u : ReqUsage) : ℕ × ℕ × ℕ × ℕ :=
  (u.input_tokens, u.output_tokens, u.cache_read_tokens, u.cache_creation_tokens)

/-- The record data of the C4 counterexample: two records for the same
request id carrying two different real (non-"unknown") model identifiers. -/
def recA : UsageRec := ⟨"model-a", 1, 1, 1, 1⟩

def recB : UsageRec := ⟨"model-b", 1, 1, 1, 1⟩

/-- C4 counterexample: the two orders of the same two records yield different
RequestAggregates, because the model identifier is taken from the last
record whose model is not "unknown" (line 168 of the source overwrites the
stored model unconditionally whenever the incoming one is real).  Hence the
fold is not order-invariant for the model identifier. -/
theorem c4_counterexample :
    ([recA, recB] : List UsageRec).Perm [recB, recA] ∧
    aggRecords [recA, recB] ≠ aggRecords [recB, recA] := by
  constructor
  · exact List.Perm.swap recB recA []
  · decide

/-- C4 amended: for every set of raw usage records for a single request id,
folding them in any order produces the same four token counts (the
max-per-field fold is commutative); the model identifier, however, is not
order-invariant when two distinct non-"unknown" identifiers appear. -/
theorem c4_token_counts_order_invariant {recs recs' : List UsageRec}
    (p : recs.Perm recs') :
    (aggRecords recs).map tokenQuad = (aggRecords recs').map tokenQuad := by
  cases recs with
  | nil =>
    have h : recs' = [] := p.symm.eq_nil
    subst h; rfl
  | cons r rs =>
    cases recs' with
    | nil => exact absurd p.eq_nil (by simp)
    | cons r' rs' =>
      rw [aggRecords_cons, aggRecords_cons]
      simp only [Option.map_some']
      congr 1
      unfold tokenQuad
      refine Prod.ext ?_ (Prod.ext ?_ (Prod.ext ?_ ?_)) <;> simp only
      · exact (aggRecords_field_eq_maxTok (fun x => x.input_tokens)
            (fun u => u.input_tokens) (fun u r => rfl) (fun r => rfl) r rs).trans
          ((maxTok_perm _ p).trans
            (aggRecords_field_eq_maxTok (fun x => x.input_tokens)
              (fun u => u.input_tokens) (fun u r => rfl) (fun r => rfl) r' rs').symm)
      · exact (aggRecords_field_eq_maxTok (fun x => x.output_tokens)
            (fun u => u.output_tokens) (fun u r => rfl) (fun r => rfl) r rs).trans
          ((maxTok_perm _ p).trans
            (aggRecords_field_eq_maxTok (fun x => x.output_tokens)
              (fun u => u.output_tokens) (fun u r => rfl) (fun r => rfl) r' rs').symm)
      · exact (aggRecords_field_eq_maxTok (fun x => x.cache_read_tokens)
            (fun u => u.cache_read_tokens) (fun u r => rfl) (fun r => rfl) r rs).trans
          ((maxTok_perm _ p).trans
            (aggRecords_field_eq_maxTok (fun x => x.cache_read_tokens)
              (fun u => u.cache_read_tokens) (fun u r => rfl) (fun r => rfl) r' rs').symm)
      · exact (aggRecords_field_eq_maxTok (fun x => x.cache_creation_tokens)
            (fun u => u.cache_creation_tokens) (fun u r => rfl) (fun r => rfl) r rs).trans
          ((maxTok_perm _ p).trans
            (aggRecords_field_eq_maxTok (fun x => x.cache_creation_tokens)
              (fun u => u.cache_creation_tokens) (fun u r => rfl) (fun r => rfl) r' rs').symm)

/-- C4 witness: the amended theorem applied to the concrete swapped pair of
records; their token quadruples agree even though the aggregates differ. -/
theorem c4_witness :
    (aggRecords [recA, recB]).map tokenQuad = (aggRecords [recB, recA]).map tokenQuad :=
  c4_token_counts_order_invariant (List.Perm.swap recB recA [])

/-! ## C5: model-identifier update rule -/

def c5Line1 : RawLine :=
  .entry ⟨"assistant", "r1", none, ⟨some "model-a", some ⟨some 1, some 1, none, none⟩⟩⟩

def c5Line2 : RawLine :=
  .entry ⟨"assistant", "r1", none, ⟨some "model-b", some ⟨some 2, some 2, none, none⟩⟩⟩

/-- C5 counterexample: after the first line the stored model is "model-a"
(a real, non-placeholder identifier), yet folding a second record carrying
"model-b" overwrites it — the source (line 168) overwrites whenever the
incoming model is not "unknown", with no check that the existing one is the
placeholder. -/
theorem c5_counterexample :
    (alistLookup "r1" (parseScan [c5Line1]).request_usage).map ReqUsage.model =
      some "model-a" ∧
    (alistLookup "r1" (parseScan [c5Line1, c5Line2]).request_usage).map ReqUsage.model =
      some "model-b" ∧
    ("model-a" : String) ≠ "unknown" ∧ ("model-b" : String) ≠ "model-a" := by
  refine ⟨by rfl, by rfl, by decide, by decide⟩

/-- C5 amended: when folding a later record into an existing
RequestAggregate, the stored model identifier is replaced by the incoming
record's model whenever that incoming model is not "unknown" — even if the
existing identifier is already a real (non-placeholder) one — and is left
unchanged only when the incoming model is "unknown". -/
theorem c5_model_update_rule (u : ReqUsage) (r : UsageRec) :
    (mergeRec u r).model = if r.model = "unknown" then u.model else r.model := by
  by_cases h : r.model = "unknown" <;> simp [mergeRec, h]

/-! ## C8: malformed lines never abort the scan -/

/-- C8: a transcript line that fails to parse as JSON is skipped and the scan
continues: deleting any malformed line from anywhere in the transcript leaves
the aggregator's entire result (by_model, totals, completed_requests)
unchanged.  The aggregator is a total function of the line list, so no line
can abort it — it always returns a result. -/
theorem c8_malformed_line_skipped (override : Option (List (String × PriceEntry)))
    (l1 l2 : List RawLine) :
    parse_transcript override (l1 ++ RawLine.malformed :: l2) =
      parse_transcript override (l1 ++ l2) := by
  have h : parseScan (l1 ++ RawLine.malformed :: l2) = parseScan (l1 ++ l2) := by
    simp only [parseScan, List.foldl_append, List.foldl_cons]
    rfl
  simp only [parse_transcript, h]

/-! ## C3: the duration window for completed requests -/

theorem mkCompleted_request_id {pricing : List (String × PriceEntry)} {k : String}
    {u : ReqUsage} {tm : ReqTiming} {c : CompletedRequest}
    (h : mkCompleted pricing k u tm = some c) : c.request_id = k := by
  simp only [mkCompleted] at h
  split at h
  · split_ifs at h
    cases Option.some.inj h
    rfl
  · exact absurd h (by simp)

theorem mkCompleted_some_of_cond {pricing : List (String × PriceEntry)} {k : String}
    {u : ReqUsage} {f l : ℚ} (hd : 1/10 < l - f ∧ l - f < 3600) :
    mkCompleted pricing k u ⟨some f, some l⟩ =
      some { request_id := k, timestamp := some l, duration_seconds := l - f,
             output_tokens := u.output_tokens,
             total_tokens := u.input_tokens + u.output_tokens +
               u.cache_read_tokens + u.cache_creation_tokens,
             output_tps := (u.output_tokens : ℚ) / (l - f),
             total_tps := ((u.input_tokens + u.output_tokens +
               u.cache_read_tokens + u.cache_creation_tokens : ℕ) : ℚ) / (l - f),
             cost := calculate_cost (tokensOfReqUsage u) u.model pricing } := by
  show (if 1/10 < l - f ∧ l - f < 3600 then _ else none) = _
  rw [if_pos hd]

theorem mkCompleted_cond_of_some {pricing : List (String × PriceEntry)} {k : String}
    {u : ReqUsage} {f l : ℚ} {c : CompletedRequest}
    (h : mkCompleted pricing k u ⟨some f, some l⟩ = some c) :
    (1/10 < l - f ∧ l - f < 3600) ∧
    c.output_tps = (u.output_tokens : ℚ) / (l - f) ∧
    c.total_tps = ((u.input_tokens + u.output_tokens +
      u.cache_read_tokens + u.cache_creation_tokens : ℕ) : ℚ) / (l - f) := by
  by_cases hd : 1/10 < l - f ∧ l - f < 3600
  · rw [mkCompleted_some_of_cond hd] at h
    obtain rfl := Option.some.inj h
    exact ⟨hd, rfl, rfl⟩
  · have hn : mkCompleted pricing k u ⟨some f, some l⟩ = none := by
      show (if 1/10 < l - f ∧ l - f < 3600 then _ else none) = none
      rw [if_neg hd]
    rw [hn] at h
    exact absurd h (by simp)

/-- C3: for every request aggregate of the scan whose timing entry holds a
parseable first and last timestamp, a CompletedRequest for that request id is
produced if and only if last minus first lies strictly between 0.1 and 3600
seconds (boundaries excluded, since the source test is `0.1 < duration <
3600`), and every produced CompletedRequest for that id carries
output_tps = output_tokens / duration and total_tps = total_tokens / duration. -/
theorem c3_completed_iff_duration (override : Option (List (String × PriceEntry)))
    (lines : List RawLine) (rid : String) (u : ReqUsage) (f l : ℚ)
    (hu : alistLookup rid (parseScan lines).request_usage = some u)
    (ht : alistLookup rid (parseScan lines).request_timing = some ⟨some f, some l⟩) :
    ((∃ c ∈ (parse_transcript override lines).completed_requests, c.request_id = rid) ↔
      (1/10 < l - f ∧ l - f < 3600)) ∧
    ∀ c ∈ (parse_transcript override lines).completed_requests, c.request_id = rid →
      c.output_tps = (u.output_tokens : ℚ) / (l - f) ∧
      c.total_tps = ((u.input_tokens + u.output_tokens +
        u.cache_read_tokens + u.cache_creation_tokens : ℕ) : ℚ) / (l - f) := by
  have hcr : (parse_transcript override lines).completed_requests =
      completedRequests (load_pricing override) (parseScan lines) := rfl
  have hext : ∀ c ∈ completedRequests (load_pricing override) (parseScan lines),
      c.request_id = rid →
      mkCompleted (load_pricing override) rid u ⟨some f, some l⟩ = some c := by
    intro c hc hcid
    obtain ⟨p, hp, hpc⟩ := List.mem_filterMap.mp hc
    obtain ⟨k0, u0⟩ := p
    obtain ⟨tm, htm, hmk⟩ : ∃ tm,
        alistLookup k0 (parseScan lines).request_timing = some tm ∧
        mkCompleted (load_pricing override) k0 u0 tm = some c := by
      revert hpc
      cases h0 : alistLookup k0 (parseScan lines).request_timing with
      | none => intro hpc; exact absurd hpc (by simp)
      | some tm => intro hpc; exact ⟨tm, rfl, hpc⟩
    have hk : k0 = rid := (mkCompleted_request_id hmk).symm.trans hcid
    subst hk
    have hu0 : u0 = u := by
      have := alistLookup_eq_some_of_mem_nodup (nodup_keys_parseScan lines) hp
      rw [this] at hu
      exact Option.some.inj hu
    subst hu0
    rw [htm] at ht
    rw [Option.some.inj ht] at hmk
    exact hmk
  constructor
  · constructor
    · rintro ⟨c, hc, hcid⟩
      exact (mkCompleted_cond_of_some (hext c (hcr ▸ hc) hcid)).1
    · intro hd
      refine ⟨{ request_id := rid, timestamp := some l, duration_seconds := l - f,
                output_tokens := u.output_tokens,
                total_tokens := u.input_tokens + u.output_tokens +
                  u.cache_read_tokens + u.cache_creation_tokens,
                output_tps := (u.output_tokens : ℚ) / (l - f),
                total_tps := ((u.input_tokens + u.output_tokens +
                  u.cache_read_tokens + u.cache_creation_tokens : ℕ) : ℚ) / (l - f),
                cost := calculate_cost (tokensOfReqUsage u) u.model
                  (load_pricing override) }, ?_, rfl⟩
      rw [hcr]
      apply List.mem_filterMap.mpr
      refine ⟨(rid, u), mem_of_alistLookup_eq_some hu, ?_⟩
      simp only [ht]
      exact mkCompleted_some_of_cond hd
  · intro c hc hcid
    exact (mkCompleted_cond_of_some (hext c (hcr ▸ hc) hcid)).2

def c3Line1 : RawLine :=
  .entry ⟨"assistant", "r1", some (some 0), ⟨some "m", some ⟨some 10, some 20, none, none⟩⟩⟩

def c3Line2 : RawLine :=
  .entry ⟨"assistant", "r1", some (some 1), ⟨some "m", some ⟨some 10, some 30, none, none⟩⟩⟩

/-- C3 witness: a two-line transcript for request "r1" with timestamps 0 and
1 second; the duration 1 lies inside (0.1, 3600), so a CompletedRequest
exists and carries the stated throughput values. -/
theorem c3_witness :
    ((∃ c ∈ (parse_transcript none [c3Line1, c3Line2]).completed_requests,
        c.request_id = "r1") ↔
      ((1 : ℚ)/10 < 1 - 0 ∧ (1 : ℚ) - 0 < 3600)) ∧
    ∀ c ∈ (parse_transcript none [c3Line1, c3Line2]).completed_requests,
      c.request_id = "r1" →
      c.output_tps = ((30 : ℕ) : ℚ) / (1 - 0) ∧
      c.total_tps = ((10 + 30 + 0 + 0 : ℕ) : ℚ) / (1 - 0) :=
  c3_completed_iff_duration none [c3Line1, c3Line2] "r1" ⟨"m", 10, 30, 0, 0⟩ 0 1
    (by rfl) (by rfl)

/-! ## Daily rollup store (main, load_daily_stats, recalculate_daily_totals)

A SessionEntry is the dict built in main (lines 478-485): session fields plus
the spread of the totals dict, with "started" attached afterwards.  Every
field is present in the typed model (a JSON-loaded entry could in principle
lack "started"; the source defaults it to last_updated, which is what a
freshly appended entry holds anyway). -/

structure SessionEntry where
  session_id : String
  date : String
  last_updated : String
  project : String
  by_model : List (String × ModelStats)
  input_tokens : ℕ
  output_tokens : ℕ
  cache_read_tokens : ℕ
  cache_creation_tokens : ℕ
  request_count : ℕ
  cost : ℚ
  total_tokens : ℕ
  started : String
deriving DecidableEq

structure DailyTotals where
  input_tokens : ℕ
  output_tokens : ℕ
  cache_read_tokens : ℕ
  cache_creation_tokens : ℕ
  total_tokens : ℕ
  request_count : ℕ
  session_count : ℕ
  cost : ℚ
deriving DecidableEq

structure DailyStats where
  date : String
  sessions : List SessionEntry
  daily_totals : DailyTotals
  by_model : List (String × ModelStats)
deriving DecidableEq

def zeroModelStats : ModelStats := ⟨0, 0, 0, 0, 0, 0⟩

/-- Field-wise addition used by the by-model merge loop (line 327-328):
all six numeric fields are accumulated. -/
def addModelStats (ms add : ModelStats) : ModelStats :=
  ⟨ms.input_tokens + add.input_tokens, ms.output_tokens + add.output_tokens,
   ms.cache_read_tokens + add.cache_read_tokens,
   ms.cache_creation_tokens + add.cache_creation_tokens,
   ms.request_count + add.request_count, ms.cost + add.cost⟩

/-- Overwrite the session_count field.  The source zeroes the seven
accumulating total fields in place before the loop, leaves session_count
untouched while accumulating, and overwrites it with the session-list length
at the end; `setSC` names that single-field write. -/
def setSC (t : DailyTotals) (n : ℕ) : DailyTotals :=
  { t with session_count := n }

/-- One iteration of the recalculation loop (lines 308-328): add the
session's seven total fields and merge its by_model map. -/
def recalcStep (acc : DailyTotals × List (String × ModelStats)) (s : SessionEntry) :
    DailyTotals × List (String × ModelStats) :=
  let t := acc.1
  let t' : DailyTotals :=
    { t with input_tokens := t.input_tokens + s.input_tokens,
             output_tokens := t.output_tokens + s.output_tokens,
             cache_read_tokens := t.cache_read_tokens + s.cache_read_tokens,
             cache_creation_tokens := t.cache_creation_tokens + s.cache_creation_tokens,
             total_tokens := t.total_tokens + s.total_tokens,
             request_count := t.request_count + s.request_count,
             cost := t.cost + s.cost }
  let bm := s.by_model.foldl (fun acc2 kv =>
    dictUpd kv.1 (addModelStats zeroModelStats kv.2)
      (fun ms => addModelStats ms kv.2) acc2) acc.2
  (t', bm)

/-- recalculate_daily_totals (lines 295-330): zero the seven accumulating
fields (session_count carries its stale value during the loop), reset
by_model, fold over all sessions, then set session_count from the list
length. -/
def recalculate_daily_totals (d : DailyStats) : DailyStats :=
  let r := d.sessions.foldl recalcStep
    (setSC ⟨0, 0, 0, 0, 0, 0, 0, 0⟩ d.daily_totals.session_count, [])
  { d with daily_totals := setSC r.1 d.sessions.length, by_model := r.2 }

/-- The session upsert of main (lines 487-497): replace the first entry with
a matching session id in place, preserving only its "started" field;
otherwise append a new entry whose "started" equals its "last_updated". -/
def upsertSessions (e : SessionEntry) : List SessionEntry → List SessionEntry
  | [] => [{ e with started := e.last_updated }]
  | s :: rest =>
    if s.session_id = e.session_id then { e with started := s.started } :: rest
    else s :: upsertSessions e rest

/-- The combined upsert-then-recalculate step of main (lines 487-499). -/
def upsertSession (d : DailyStats) (e : SessionEntry) : DailyStats :=
  recalculate_daily_totals { d with sessions := upsertSessions e d.sessions }

/-- session_count is a passenger of the recalculation fold: it is copied
through every step unchanged. -/
theorem foldl_recalcStep_setSC (sessions : List SessionEntry) (t : DailyTotals)
    (b : List (String × ModelStats)) (n : ℕ) :
    sessions.foldl recalcStep (setSC t n, b) =
      (setSC (sessions.foldl recalcStep (t, b)).1 n,
       (sessions.foldl recalcStep (t, b)).2) := by
  induction sessions generalizing t b with
  | nil => rfl
  | cons s ss ih =>
    simp only [List.foldl_cons]
    have hstep : recalcStep (setSC t n, b) s =
        (setSC (recalcStep (t, b) s).1 n, (recalcStep (t, b) s).2) := rfl
    rw [hstep]
    exact ih (recalcStep (t, b) s).1 (recalcStep (t, b) s).2

/-- Recalculation is idempotent: totals and by_model are a pure function of
the session list, so recomputing them from an already-recalculated document
changes nothing. -/
theorem recalc_idem (d : DailyStats) :
    recalculate_daily_totals (recalculate_daily_totals d) =
      recalculate_daily_totals d := by
  obtain ⟨dt, s, t, b⟩ := d
  show (⟨dt, s,
      setSC (s.foldl recalcStep (setSC ⟨0, 0, 0, 0, 0, 0, 0, 0⟩ s.length, [])).1 s.length,
      (s.foldl recalcStep (setSC ⟨0, 0, 0, 0, 0, 0, 0, 0⟩ s.length, [])).2⟩ : DailyStats) =
    ⟨dt, s,
      setSC (s.foldl recalcStep
        (setSC ⟨0, 0, 0, 0, 0, 0, 0, 0⟩ t.session_count, [])).1 s.length,
      (s.foldl recalcStep (setSC ⟨0, 0, 0, 0, 0, 0, 0, 0⟩ t.session_count, [])).2⟩
  rw [foldl_recalcStep_setSC s ⟨0, 0, 0, 0, 0, 0, 0, 0⟩ [] s.length,
    foldl_recalcStep_setSC s ⟨0, 0, 0, 0, 0, 0, 0, 0⟩ [] t.session_count]
  rfl

/-- Replacing the same entry a second time finds it at the same position,
preserves the started value it already carries, and reproduces the list. -/
theorem upsertSessions_idem (e : SessionEntry) (l : List SessionEntry) :
    upsertSessions e (upsertSessions e l) = upsertSessions e l := by
  induction l with
  | nil => simp [upsertSessions]
  | cons s rest ih =>
    by_cases h : s.session_id = e.session_id
    · simp [upsertSessions, h]
    · simp [upsertSessions, h, ih]

/-- C2: applying the session upsert twice with the same SessionEntry to any
DailyStats yields a result identical to applying it once — the second run
finds the entry by session id, preserves its "started" timestamp, replaces
it wholesale, and the recomputed totals and by-model summaries are
unchanged. -/
theorem c2_upsert_idempotent (d : DailyStats) (e : SessionEntry) :
    upsertSession (upsertSession d e) e = upsertSession d e := by
  obtain ⟨dt, s, t, b⟩ := d
  calc upsertSession (upsertSession ⟨dt, s, t, b⟩ e) e
      = recalculate_daily_totals
          ⟨dt, upsertSessions e (upsertSessions e s),
           (recalculate_daily_totals ⟨dt, upsertSessions e s, t, b⟩).daily_totals,
           (recalculate_daily_totals ⟨dt, upsertSessions e s, t, b⟩).by_model⟩ := rfl
    _ = recalculate_daily_totals
          ⟨dt, upsertSessions e s,
           (recalculate_daily_totals ⟨dt, upsertSessions e s, t, b⟩).daily_totals,
           (recalculate_daily_totals ⟨dt, upsertSessions e s, t, b⟩).by_model⟩ := by
        rw [upsertSessions_idem]
    _ = recalculate_daily_totals
          (recalculate_daily_totals ⟨dt, upsertSessions e s, t, b⟩) := rfl
    _ = recalculate_daily_totals ⟨dt, upsertSessions e s, t, b⟩ := recalc_idem _
    _ = upsertSession ⟨dt, s, t, b⟩ e := rfl

/-! ## Time-series ring store (load_timeseries / update_timeseries)

The source keys buckets by the minute string `ts.strftime("%Y-%m-%dT%H:%M")`;
that key is embedded as the minute index `⌊t / 60⌋ : ℤ`, and
`parse_iso_timestamp(key + ":00")` — the instant the pruning comparison
re-parses from a key — is `keyTime k = 60·k`. -/

structure Bucket where
  output_tokens : ℕ
  total_tokens : ℕ
  total_duration : ℚ
  request_count : ℕ
  output_tps : ℚ
  total_tps : ℚ
  cost : ℚ
deriving DecidableEq

/-- The fresh bucket of lines 406-414. -/
def zeroBucket : Bucket := ⟨0, 0, 0, 0, 0, 0, 0⟩

structure TimeSeriesStore where
  version : ℕ
  buckets : List (ℤ × Bucket)
  seen_request_ids : List String
deriving DecidableEq

def keyTime (k : ℤ) : ℚ := 60 * k

def bucketKeyOf (t : ℚ) : ℤ := ⌊t / 60⌋

/-- Seen-id trimming (lines 379-381): only when the loaded list exceeds 1000
entries is it cut down to its most recent 900. -/
def seenTrim (ids : List String) : List String :=
  if ids.length > 1000 then ids.drop (ids.length - 900) else ids

/-- Fold one completed request into a bucket (lines 416-426): accumulate
tokens, duration, count and cost, then recompute the two average-throughput
fields from the cumulative values when the cumulative duration is positive. -/
def addReqToBucket (b : Bucket) (req : CompletedRequest) : Bucket :=
  let b1 : Bucket :=
    { b with output_tokens := b.output_tokens + req.output_tokens,
             total_tokens := b.total_tokens + req.total_tokens,
             total_duration := b.total_duration + req.duration_seconds,
             request_count := b.request_count + 1,
             cost := b.cost + req.cost }
  if 0 < b1.total_duration then
    { b1 with output_tps := (b1.output_tokens : ℚ) / b1.total_duration,
              total_tps := (b1.total_tokens : ℚ) / b1.total_duration }
  else b1

/-- Process one completed request (the loop body, lines 387-430): skip it if
its id is falsy or already seen, or its timestamp is absent or unparseable;
otherwise fold it into its minute bucket and record its id at the end of the
seen list. -/
def tsStep (st : TimeSeriesStore) (req : CompletedRequest) : TimeSeriesStore :=
  if req.request_id = "" ∨ req.request_id ∈ st.seen_request_ids then st
  else
    match req.timestamp with
    | none => st
    | some t =>
      { st with
        buckets := dictUpd (bucketKeyOf t) (addReqToBucket zeroBucket req)
          (fun b => addReqToBucket b req) st.buckets,
        seen_request_ids := st.seen_request_ids ++ [req.request_id] }

/-- update_timeseries (lines 361-434): prune buckets older than
now − 35 minutes, trim the seen-id list, then fold in the completed
requests. -/
def update_timeseries (data : TimeSeriesStore) (completed : List CompletedRequest)
    (now : ℚ) : TimeSeriesStore :=
  let cutoff := now - 35 * 60
  completed.foldl tsStep
    { data with
      buckets := data.buckets.filter (fun kv => cutoff < keyTime kv.1),
      seen_request_ids := seenTrim data.seen_request_ids }

theorem tsStep_of_cond (st : TimeSeriesStore) (req : CompletedRequest)
    (h : req.request_id = "" ∨ req.request_id ∈ st.seen_request_ids) :
    tsStep st req = st := by
  unfold tsStep
  rw [if_pos h]

/-! ## C6: bucket ages after an update -/

def c6Store : TimeSeriesStore := ⟨1, [], []⟩

def c6Req : CompletedRequest := ⟨"r", some 0, 1, 10, 20, 10, 20, 0⟩

/-- C6 counterexample: pruning happens before new requests are folded in, so
a completed request whose timestamp is far older than now − 35 minutes
creates a bucket for that old minute.  With now = 1000000 s and a request at
t = 0 s, the store right after the update contains exactly the bucket for
minute 0, which is far older than the cutoff — refuting the claim that no
bucket older than now − 35 minutes is ever present after an update. -/
theorem c6_counterexample :
    (update_timeseries c6Store [c6Req] 1000000).buckets.map Prod.fst = [(0 : ℤ)] ∧
    keyTime 0 < (1000000 : ℚ) - 35 * 60 := by
  constructor
  · simp [update_timeseries, c6Store, c6Req, tsStep, seenTrim, dictUpd, bucketKeyOf]
  · norm_num [keyTime]

theorem keys_tsStep (st : TimeSeriesStore) (req : CompletedRequest) (k : ℤ)
    (hk : k ∈ (tsStep st req).buckets.map Prod.fst) :
    k ∈ st.buckets.map Prod.fst ∨
      ∃ t, req.timestamp = some t ∧ bucketKeyOf t = k := by
  unfold tsStep at hk
  split_ifs at hk with h
  · exact Or.inl hk
  · revert hk
    cases hts : req.timestamp with
    | none => intro hk; exact Or.inl hk
    | some t =>
      intro hk
      simp only at hk
      rw [keys_dictUpd] at hk
      by_cases hmem : bucketKeyOf t ∈ st.buckets.map Prod.fst
      · rw [if_pos hmem] at hk
        exact Or.inl hk
      · rw [if_neg hmem] at hk
        rcases List.mem_append.mp hk with h1 | h1
        · exact Or.inl h1
        · simp only [List.mem_singleton] at h1
          exact Or.inr ⟨t, rfl, h1.symm⟩

theorem keys_foldl_tsStep (completed : List CompletedRequest)
    (st : TimeSeriesStore) (k : ℤ)
    (hk : k ∈ (completed.foldl tsStep st).buckets.map Prod.fst) :
    k ∈ st.buckets.map Prod.fst ∨
      ∃ r ∈ completed, ∃ t, r.timestamp = some t ∧ bucketKeyOf t = k := by
  induction completed generalizing st with
  | nil => exact Or.inl hk
  | cons r rs ih =>
    rcases ih (tsStep st r) (by simpa using hk) with h | h
    · rcases keys_tsStep st r k h with h2 | h2
      · exact Or.inl h2
      · exact Or.inr ⟨r, List.mem_cons_self r rs, h2⟩
    · obtain ⟨r', hr', ht⟩ := h
      exact Or.inr ⟨r', List.mem_cons_of_mem _ hr', ht⟩

/-- C6 amended: immediately after an update, every bucket key in the store is
either younger than now − 35 minutes or the minute key of one of this call's
completed requests.  Pre-existing buckets older than the cutoff are always
pruned; only buckets freshly (re)created for the requests passed to this very
call may carry an older key (they are pruned on the next update). -/
theorem c6_bucket_keys_after_update (data : TimeSeriesStore)
    (completed : List CompletedRequest) (now : ℚ) (k : ℤ)
    (hk : k ∈ (update_timeseries data completed now).buckets.map Prod.fst) :
    now - 35 * 60 < keyTime k ∨
      ∃ r ∈ completed, ∃ t, r.timestamp = some t ∧ bucketKeyOf t = k := by
  unfold update_timeseries at hk
  rcases keys_foldl_tsStep completed _ k hk with h | h
  · left
    simp only at h
    obtain ⟨kv, hkv, hfst⟩ := List.mem_map.mp h
    have hp := (List.mem_filter.mp hkv).2
    rw [hfst] at hp
    exact of_decide_eq_true hp
  · exact Or.inr h

/-- C6 witness: the amended theorem applied at a concrete input (empty store,
one request at t = 0 s, now = 60 s; its bucket key 0 comes from the request). -/
theorem c6_witness :
    (60 : ℚ) - 35 * 60 < keyTime 0 ∨
      ∃ r ∈ [c6Req], ∃ t, r.timestamp = some t ∧ bucketKeyOf t = 0 :=
  c6_bucket_keys_after_update c6Store [c6Req] 60 0
    (by simp [update_timeseries, c6Store, c6Req, tsStep, seenTrim, dictUpd, bucketKeyOf])

/-! ## C7: deduplication under request-id replay -/

theorem addReqToBucket_request_count (b : Bucket) (req : CompletedRequest) :
    (addReqToBucket b req).request_count = b.request_count + 1 := by
  unfold addReqToBucket
  dsimp only
  split_ifs <;> rfl

def c7Req : CompletedRequest := ⟨"r", some 0, 1, 10, 20, 10, 20, 0⟩

/-- The C7 counterexample store: the bucket for minute 0 already counts
request "r" once, and the seen-id list holds 1001 entries with "r" the
oldest. -/
def c7Store : TimeSeriesStore :=
  ⟨1, [(0, addReqToBucket zeroBucket c7Req)], "r" :: List.replicate 1000 "x"⟩

theorem seenTrim_c7 :
    seenTrim ("r" :: List.replicate 1000 "x") = List.replicate 900 "x" := by
  have hlen : ("r" :: List.replicate 1000 "x").length = 1001 := by
    rw [List.length_cons, List.length_replicate]
  unfold seenTrim
  rw [hlen, if_pos (by decide)]
  show ("r" :: List.replicate 1000 "x").drop 101 = _
  rw [List.drop_succ_cons, List.drop_replicate]

theorem r_notMem_replicate900 : "r" ∉ List.replicate 900 "x" := by
  simp only [List.mem_replicate]
  rintro ⟨-, h⟩
  exact absurd h (by decide)

/-- C7 counterexample: the claim quantifies over every store.  In this store
the replayed id "r" IS in the seen-id list, yet its list position is beyond
the trim horizon: the update first trims the 1001-entry list to its last 900
(dropping "r"), then counts the request again — the minute-0 bucket's
request_count grows from 1 to 2 instead of staying unchanged. -/
theorem c7_counterexample :
    "r" ∈ c7Store.seen_request_ids ∧
    ((update_timeseries c7Store [] 60).buckets.map
      (fun kv => (kv.1, kv.2.request_count)) = [((0 : ℤ), 1)]) ∧
    ((update_timeseries c7Store [c7Req] 60).buckets.map
      (fun kv => (kv.1, kv.2.request_count)) = [((0 : ℤ), 2)]) := by
  refine ⟨List.mem_cons_self "r" (List.replicate 1000 "x"), ?_, ?_⟩
  · unfold update_timeseries c7Store
    simp only [seenTrim_c7, List.foldl_nil, List.filter_cons, List.filter_nil]
    rw [if_pos (by norm_num [keyTime])]
    simp [addReqToBucket_request_count, zeroBucket]
  · unfold update_timeseries c7Store
    simp only [seenTrim_c7, List.foldl_cons, List.foldl_nil, List.filter_cons,
      List.filter_nil]
    rw [if_pos (by norm_num [keyTime])]
    unfold tsStep
    rw [if_neg (fun h => h.elim (fun h1 => absurd h1 (by decide)) r_notMem_replicate900)]
    simp only [c7Req]
    simp only [bucketKeyOf, zero_div, Int.floor_zero, dictUpd, if_pos]
    simp [addReqToBucket_request_count, zeroBucket]

/-- C7 amended: replaying a CompletedRequest has no effect provided its id is
still in the seen-id list after the trim step — in particular whenever the
loaded list has at most 1000 entries, or the id is among the most recent 900.
Only when the id was recorded more than 900 ids ago AND the list exceeds 1000
entries can a replay be double-counted (the spec's bounded-dedup trade-off). -/
theorem c7_replay_no_effect (data : TimeSeriesStore) (req : CompletedRequest)
    (rest : List CompletedRequest) (now : ℚ)
    (h : req.request_id ∈ seenTrim data.seen_request_ids) :
    update_timeseries data (req :: rest) now = update_timeseries data rest now := by
  unfold update_timeseries
  rw [List.foldl_cons]
  congr 1
  exact tsStep_of_cond _ req (Or.inr h)

/-- C7 witness: a store whose seen list is exactly ["r"]; replaying the
request with id "r" is a no-op. -/
theorem c7_witness :
    update_timeseries ⟨1, [], ["r"]⟩ [c7Req] 0 = update_timeseries ⟨1, [], ["r"]⟩ [] 0 :=
  c7_replay_no_effect ⟨1, [], ["r"]⟩ c7Req [] 0 (by decide)

/-! ## C10: structure of the seen-id list after an update -/

/-- The ids that one update call newly records, mirroring the processing loop
of update_timeseries: an id is recorded when it is truthy, not yet seen
(relative to the trimmed list plus the ids recorded earlier in this same
call), and its request's timestamp parses. -/
def recordedIds (seen : List String) : List CompletedRequest → List String
  | [] => []
  | req :: rest =>
    if req.request_id = "" ∨ req.request_id ∈ seen then recordedIds seen rest
    else
      match req.timestamp with
      | none => recordedIds seen rest
      | some _ => req.request_id :: recordedIds (seen ++ [req.request_id]) rest

theorem recordedIds_cons (seen : List String) (req : CompletedRequest)
    (rest : List CompletedRequest) :
    recordedIds seen (req :: rest) =
      if req.request_id = "" ∨ req.request_id ∈ seen then recordedIds seen rest
      else
        match req.timestamp with
        | none => recordedIds seen rest
        | some _ => req.request_id :: recordedIds (seen ++ [req.request_id]) rest := rfl

/-- The seen-id list after the processing fold is the starting list with the
newly recorded ids appended at the end. -/
theorem seen_foldl_tsStep (completed : List CompletedRequest) :
    ∀ st : TimeSeriesStore, (completed.foldl tsStep st).seen_request_ids =
      st.seen_request_ids ++ recordedIds st.seen_request_ids completed := by
  induction completed with
  | nil => intro st; simp [recordedIds]
  | cons req rest ih =>
    intro st
    rw [List.foldl_cons]
    by_cases h : req.request_id = "" ∨ req.request_id ∈ st.seen_request_ids
    · rw [tsStep_of_cond st req h, ih st, recordedIds_cons, if_pos h]
    · cases hts : req.timestamp with
      | none =>
        have hstep : tsStep st req = st := by
          unfold tsStep
          rw [if_neg h, hts]
        rw [hstep, ih st, recordedIds_cons, if_neg h, hts]
      | some t =>
        have hseen : (tsStep st req).seen_request_ids =
            st.seen_request_ids ++ [req.request_id] := by
          unfold tsStep
          rw [if_neg h, hts]
        rw [ih (tsStep st req), hseen, recordedIds_cons, if_neg h, hts]
        simp

/-- The newly recorded ids are pairwise distinct and disjoint from the
starting seen list. -/
theorem recordedIds_spec (completed : List CompletedRequest) :
    ∀ seen : List String, (recordedIds seen completed).Nodup ∧
      ∀ id ∈ recordedIds seen completed, id ∉ seen := by
  induction completed with
  | nil => intro seen; simp [recordedIds]
  | cons req rest ih =>
    intro seen
    by_cases h : req.request_id = "" ∨ req.request_id ∈ seen
    · rw [recordedIds_cons, if_pos h]
      exact ih seen
    · cases hts : req.timestamp with
      | none =>
        rw [recordedIds_cons, if_neg h, hts]
        exact ih seen
      | some t =>
        rw [recordedIds_cons, if_neg h, hts]
        have ih2 := ih (seen ++ [req.request_id])
        have hid : req.request_id ∉ seen := fun hmem => h (Or.inr hmem)
        constructor
        · refine List.nodup_cons.mpr ⟨?_, ih2.1⟩
          intro hmem
          exact (ih2.2 _ hmem) (List.mem_append.mpr (Or.inr (List.mem_singleton.mpr rfl)))
        · intro id hmem
          rcases List.mem_cons.mp hmem with rfl | hmem2
          · exact hid
          · intro hcontra
            exact (ih2.2 _ hmem2) (List.mem_append.mpr (Or.inl hcontra))

def c10Req : CompletedRequest := ⟨"r", some 0, 1, 10, 20, 10, 20, 0⟩

def c10Store : TimeSeriesStore := ⟨1, [], List.replicate 1000 "x"⟩

/-- C10: in every time-series update the seen-id list is trimmed (to its most
recent 900 entries, only when the loaded length exceeds 1000 — that is what
`seenTrim` does) strictly before any completed request is processed; the
persisted list is the trimmed input with every newly recorded id appended
exactly once at the end (the appended ids are pairwise distinct and none of
them was in the trimmed list), so its length is the trimmed input length plus
the number of newly recorded requests — and it can exceed 1000, as the
concrete run with 1000 old ids plus one new request shows. -/
theorem c10_seen_list_structure :
    (∀ (data : TimeSeriesStore) (completed : List CompletedRequest) (now : ℚ),
      (update_timeseries data completed now).seen_request_ids =
        seenTrim data.seen_request_ids ++
          recordedIds (seenTrim data.seen_request_ids) completed ∧
      (recordedIds (seenTrim data.seen_request_ids) completed).Nodup ∧
      (∀ id ∈ recordedIds (seenTrim data.seen_request_ids) completed,
        id ∉ seenTrim data.seen_request_ids) ∧
      (update_timeseries data completed now).seen_request_ids.length =
        (seenTrim data.seen_request_ids).length +
          (recordedIds (seenTrim data.seen_request_ids) completed).length) ∧
    (update_timeseries c10Store [c10Req] 60).seen_request_ids.length = 1001 := by
  constructor
  · intro data completed now
    have hstruct : (update_timeseries data completed now).seen_request_ids =
        seenTrim data.seen_request_ids ++
          recordedIds (seenTrim data.seen_request_ids) completed := by
      unfold update_timeseries
      rw [seen_foldl_tsStep]
    exact ⟨hstruct, (recordedIds_spec completed _).1, (recordedIds_spec completed _).2,
      by rw [hstruct, List.length_append]⟩
  · have h1 : seenTrim (List.replicate 1000 "x") = List.replicate 1000 "x" := by
      unfold seenTrim
      rw [List.length_replicate, if_neg (by decide)]
    have hnm : "r" ∉ List.replicate 1000 "x" := by
      simp only [List.mem_replicate]
      rintro ⟨-, hh⟩
      exact absurd hh (by decide)
    unfold update_timeseries c10Store c10Req
    dsimp only
    rw [h1, List.foldl_cons, List.foldl_nil]
    unfold tsStep
    dsimp only
    rw [if_neg (fun hh => hh.elim (fun h1 => absurd h1 (by decide)) hnm)]
    dsimp only
    rw [List.length_append, List.length_replicate]
    decide

/-- On the object-valued fragment of the pricing table, calculate_cost
returns the sum over the four token types of (count / 1,000,000) times the
resolved price component, with missing price components contributing zero.
This covers only overrides whose values are well-shaped price objects; the
crash-aware model below (PriceVal, calculate_cost_run) covers the rest. -/
theorem c9_calculate_cost_sum (tokens : TokensDict) (model : String)
    (override : Option (List (String × PriceEntry))) :
    calculate_cost tokens model (load_pricing override) =
      specCostSum tokens (get_model_pricing model (load_pricing override)) := by
  simp [calculate_cost, specCostSum]
  ring

/-! ## Crash-aware transcript model (for C8)

The `RawLine`/`Entry` types above cover the fragment of transcripts on which
parse_transcript cannot raise; the token-accounting claims live there.  The
exception-safety claim needs the raising shapes too, because the `try` at
lines 132-181 catches only `json.JSONDecodeError`, and the per-request `try`
at lines 230-255 catches only `(ValueError, TypeError)`:

* a line holding valid JSON that is not an object (`42`, `null`, `"x"`,
  `[1]`) raises AttributeError at `entry.get("type")` (line 134);
* an "assistant" record whose `message` is present but not an object raises
  AttributeError at `message.get("usage", {})` (line 136);
* a truthy non-object `usage` with a truthy requestId raises AttributeError
  at `usage.get("input_tokens", 0)` (line 146) — a falsy usage or falsy
  requestId is skipped first by the check at line 142;
* a truthy non-string `timestamp` is stored during the scan and raises
  AttributeError at `ts.replace` inside parse_iso_timestamp (line 103) when
  the completed-requests loop parses it.

All four abort parse_transcript.  `LineVal` makes these shapes representable
and the run of the aggregator returns `Except`. -/

inductive PyError
  | attributeError
deriving DecidableEq

inductive PriceVal
  | notDict
  | dict (pe : PriceEntry)
deriving DecidableEq

/-- Embed a table of well-shaped price objects into the crash-aware value
space. -/
def embedPricing (l : List (String × PriceEntry)) : List (String × PriceVal) :=
  l.map (fun kv => (kv.1, PriceVal.dict kv.2))

/-- load_pricing on the crash-aware model: the built-in defaults are price
objects; the override's values are merged unvalidated, objects or not. -/
def load_pricing_run (override : Option (List (String × PriceVal))) :
    List (String × PriceVal) :=
  match override with
  | none => embedPricing DEFAULT_PRICING
  | some custom => custom.foldl (fun acc kv => dictUpd kv.1 kv.2 (fun _ => kv.2) acc)
      (embedPricing DEFAULT_PRICING)

/-- get_model_pricing on the crash-aware model: exact match, substring match,
family fallback — returning whatever value the table holds. -/
def get_model_pricing_run (model : String) (pricing : List (String × PriceVal)) :
    PriceVal :=
  match alistLookup model pricing with
  | some pv => pv
  | none =>
    match pricing.find? (fun kv => strIn kv.1 model || strIn model kv.1) with
    | some kv => kv.2
    | none => .dict (get_family_pricing model)

/-- calculate_cost on the crash-aware model: `mp.get("input", 0)` raises
AttributeError when the resolved value is not an object; otherwise the four
(count / 1,000,000) · price terms accumulate as in the source. -/
def calculate_cost_run (tokens : TokensDict) (model : String)
    (pricing : List (String × PriceVal)) : Except PyError ℚ :=
  match get_model_pricing_run model pricing with
  | .notDict => .error .attributeError
  | .dict mp =>
    let cost : ℚ := 0
    let cost := cost + ((tokens.input_tokens.getD 0 : ℚ) / 1000000) * mp.input.getD 0
    let cost := cost + ((tokens.output_tokens.getD 0 : ℚ) / 1000000) * mp.output.getD 0
    let cost := cost + ((tokens.cache_read_tokens.getD 0 : ℚ) / 1000000) * mp.cache_read.getD 0
    let cost := cost + ((tokens.cache_creation_tokens.getD 0 : ℚ) / 1000000) * mp.cache_write.getD 0
    .ok cost

/-- C9 counterexample: the valid-JSON override mapping "m" to a non-object
value is merged unvalidated, the exact match resolves to it, and
calculate_cost raises AttributeError — refuting "calculate_cost never raises"
for an arbitrary user override object. -/
theorem c9_counterexample :
    calculate_cost_run ⟨some 1, some 1, some 1, some 1⟩ "m"
      (load_pricing_run (some [("m", PriceVal.notDict)])) =
      .error PyError.attributeError := rfl

theorem alistLookup_mapVal [DecidableEq κ] (g : α → β) (k : κ) (l : List (κ × α)) :
    alistLookup k (l.map (fun p => (p.1, g p.2))) = (alistLookup k l).map g := by
  induction l with
  | nil => rfl
  | cons kv rest ih =>
    obtain ⟨k0, v0⟩ := kv
    by_cases h : k0 = k
    · simp [alistLookup, h]
    · simp [alistLookup, h, ih]

theorem dictUpd_mapVal [DecidableEq κ] (g : α → β) (k : κ) (n : α) (f : α → α)
    (fb : β → β) (hf : ∀ v, g (f v) = fb (g v)) (l : List (κ × α)) :
    dictUpd k (g n) fb (l.map (fun p => (p.1, g p.2))) =
      (dictUpd k n f l).map (fun p => (p.1, g p.2)) := by
  induction l with
  | nil => rfl
  | cons kv rest ih =>
    obtain ⟨k0, v0⟩ := kv
    by_cases h : k0 = k
    · simp [dictUpd, h, hf]
    · simp [dictUpd, h, ih]

theorem find?_keyPred_mapVal (g : α → β) (p : κ → Bool) (l : List (κ × α)) :
    (l.map (fun q => (q.1, g q.2))).find? (fun kv => p kv.1) =
      (l.find? (fun kv => p kv.1)).map (fun q => (q.1, g q.2)) := by
  induction l with
  | nil => rfl
  | cons kv rest ih =>
    obtain ⟨k0, v0⟩ := kv
    by_cases h : p k0
    · simp [List.find?_cons_of_pos, h]
    · simp [List.find?_cons_of_neg, h, ih]

/-- Merging an all-objects override in the crash-aware table is the embedding
of the plain merge. -/
theorem load_pricing_run_embed (override : Option (List (String × PriceEntry))) :
    load_pricing_run (override.map embedPricing) =
      embedPricing (load_pricing override) := by
  cases override with
  | none => rfl
  | some custom =>
    show (embedPricing custom).foldl _ (embedPricing DEFAULT_PRICING) =
      embedPricing (custom.foldl _ DEFAULT_PRICING)
    have key : ∀ (cs : List (String × PriceEntry)) (acc : List (String × PriceEntry)),
        (embedPricing cs).foldl (fun a kv => dictUpd kv.1 kv.2 (fun _ => kv.2) a)
            (embedPricing acc) =
          embedPricing (cs.foldl (fun a kv => dictUpd kv.1 kv.2 (fun _ => kv.2) a) acc) := by
      intro cs
      induction cs with
      | nil => intro acc; rfl
      | cons kv rest ih =>
        intro acc
        obtain ⟨k0, v0⟩ := kv
        simp only [embedPricing, List.map_cons, List.foldl_cons]
        have hstep : dictUpd k0 (PriceVal.dict v0) (fun _ => PriceVal.dict v0)
            (acc.map (fun q => (q.1, PriceVal.dict q.2))) =
            (dictUpd k0 v0 (fun _ => v0) acc).map (fun q => (q.1, PriceVal.dict q.2)) :=
          dictUpd_mapVal PriceVal.dict k0 v0 (fun _ => v0) (fun _ => PriceVal.dict v0)
            (fun _ => rfl) acc
        rw [hstep]
        exact ih (dictUpd k0 v0 (fun _ => v0) acc)
    exact key custom DEFAULT_PRICING

/-- Resolution over an all-objects table is the embedding of the plain
resolution; in particular it always yields an object. -/
theorem get_model_pricing_run_embed (model : String)
    (pricing : List (String × PriceEntry)) :
    get_model_pricing_run model (embedPricing pricing) =
      .dict (get_model_pricing model pricing) := by
  unfold get_model_pricing_run get_model_pricing embedPricing
  rw [alistLookup_mapVal]
  cases alistLookup model pricing with
  | some pe => rfl
  | none =>
    dsimp only [Option.map_none']
    rw [find?_keyPred_mapVal PriceVal.dict (fun k => strIn k model || strIn model k)
      pricing]
    cases pricing.find? (fun kv => strIn kv.1 model || strIn model kv.1) with
    | some kv => rfl
    | none => rfl

/-- C9 amended: for every token-count mapping, model identifier, and override
all of whose values are well-shaped price objects, calculate_cost does not
raise and returns the sum over the four token types of (count / 1,000,000)
times the resolved price component, a missing price component contributing
zero.  For an arbitrary override object the "never raises" part is false:
c9_counterexample exhibits a non-object override value that makes
calculate_cost raise AttributeError. -/
theorem c9_cost_ok_on_wellformed (tokens : TokensDict) (model : String)
    (override : Option (List (String × PriceEntry))) :
    calculate_cost_run tokens model (load_pricing_run (override.map embedPricing)) =
      .ok (specCostSum tokens (get_model_pricing model (load_pricing override))) := by
  rw [load_pricing_run_embed]
  unfold calculate_cost_run
  rw [get_model_pricing_run_embed]
  dsimp only
  congr 1
  simp [specCostSum]
  ring

end TokenStats
